import Mathlib

/-!
Verification of the interactive sentiment-chart rendering pipeline of Cliox-VizHub.

This file gives a shallow embedding of the chart logic shared by
`src/components/SentimentChart.tsx` and `src/components/SentimentChart_v2.tsx`:
the `decimateData` point decimation, the binary-search nearest-timestamp
lookup of the mousemove handler, the tooltip row construction, the brush
end-of-drag commit, and the `renderChart` visibility/range filtering pipeline.
Timestamps (JavaScript `Date.getTime()` milliseconds) and sentiment values are
modelled as integers; JavaScript arrays become lists, out-of-range reads are
modelled with `List.getD` (the actual code only indexes in bounds, which the
theorems below make explicit).
-/

/-- A formatted data point: a parsed timestamp (milliseconds since epoch, as in
`Date.getTime()`) together with a sentiment value.  Mirrors the
`FormattedDataPoint` records of both chart files after date parsing. -/
structure Pt where
  date : Int
  value : Int
deriving Repr, DecidableEq, Inhabited

/-- The bucket lower bound `Math.floor((i * data.length) / maxPoints)` computed
in the interior loop of `decimateData` (`SentimentChart.tsx` line 44,
`SentimentChart_v2.tsx` line 39). -/
def bucketStart (len m i : Nat) : Nat := i * len / m

/-- The bucket upper bound `Math.floor(((i + 1) * data.length) / maxPoints)`
computed in the interior loop of `decimateData` (`SentimentChart.tsx` line 45);
the loop scans indices `j` with `bucketStart <= j < bucketEnd`. -/
def bucketEnd (len m i : Nat) : Nat := (i + 1) * len / m

/-- The inner loop of `decimateData`: starting from `maxPoint = data[bucketStart]`,
scan `j = bucketStart, ..., bucketEnd - 1` and replace the current best whenever
`data[j].value > maxValue` (strict comparison, so the earliest maximum wins). -/
def bucketMaxPoint (data : List Pt) (bs be : Nat) : Pt :=
  ((List.range' bs (be - bs)).map (fun j => data.getD j default)).foldl
    (fun mx q => if q.value > mx.value then q else mx) (data.getD bs default)

/-- Index-level version of the inner loop of `decimateData`: the index of the
point that `bucketMaxPoint` returns (the earliest index of maximal value in
`[bs, be)`, or `bs` itself when the bucket is empty). -/
def bucketMaxIdx (data : List Pt) (bs be : Nat) : Nat :=
  (List.range' bs (be - bs)).foldl
    (fun mi j =>
      if (data.getD j default).value > (data.getD mi default).value then j else mi)
    bs

/-- The `decimateData` utility, identical in `SentimentChart.tsx` (lines 33-65)
and `SentimentChart_v2.tsx` (lines 28-60): if the input already fits in
`maxPoints` it is returned unchanged; otherwise the first point, one
maximum-value representative for each interior bucket `i = 1, ..., maxPoints-2`,
and the last point are kept, in that order.  (The `bucketSize` local of the
source is computed but never used.) -/
def decimateData (data : List Pt) (maxPoints : Nat) : List Pt :=
  if data.length ≤ maxPoints then data
  else
    data.getD 0 default
      :: (List.range' 1 (maxPoints - 2)).map (fun i =>
          bucketMaxPoint data (bucketStart data.length maxPoints i)
            (bucketEnd data.length maxPoints i))
      ++ [data.getD (data.length - 1) default]

/-- Verification artifact: the list of input indices that `decimateData` reads
its output from in the decimation branch — index 0, the argmax index of each
interior bucket, and the last index. -/
def decimIdxs (data : List Pt) (m : Nat) : List Nat :=
  0 :: (List.range' 1 (m - 2)).map (fun i =>
      bucketMaxIdx data (bucketStart data.length m i) (bucketEnd data.length m i))
    ++ [data.length - 1]

/-- Read a timestamp out of the `sortedTimestamps` array; out-of-range reads
(never performed by the code on the inputs covered by the theorems) default
to `0`. -/
def tsGetD (ts : List Int) (i : Nat) : Int := ts.getD i 0

/-- The distance `Math.abs(sortedTimestamps[i] - mouseDate)` used by the
mousemove handler of both chart files. -/
def bsDist (ts : List Int) (p : Int) (i : Nat) : Nat := (tsGetD ts i - p).natAbs

/-- The binary-search loop of the mousemove handler (`SentimentChart.tsx`
lines 410-430, `SentimentChart_v2.tsx` lines 476-494):

while `left <= right`, take `mid = Math.floor((left + right) / 2)`, record `mid`
as `closestIndex` when it strictly improves the distance, then narrow to the
right half if `sortedTimestamps[mid] < mouseDate` and to the left half
otherwise.  `right` is an integer that may reach `-1`.  The loop is written
with an explicit fuel parameter; `ts.length + 1` rounds always suffice because
each round shrinks the interval `[left, right]`. -/
def bsearchLoop (ts : List Int) (p : Int) : Nat → Nat → Int → Nat → Nat
  | 0, _, _, closest => closest
  | fuel + 1, left, right, closest =>
    if (left : Int) ≤ right then
      let mid := (left + right.toNat) / 2
      let closest1 := if bsDist ts p mid < bsDist ts p closest then mid else closest
      if tsGetD ts mid < p then
        bsearchLoop ts p fuel (mid + 1) right closest1
      else
        bsearchLoop ts p fuel left ((mid : Int) - 1) closest1
    else closest

/-- The full binary search of the mousemove handler: `left = 0`,
`right = sortedTimestamps.length - 1`, `closestIndex = 0`. -/
def bsClosest (ts : List Int) (p : Int) : Nat :=
  bsearchLoop ts p (ts.length + 1) 0 ((ts.length : Int) - 1) 0

/-- Modelled from the spec: the reference linear scan that the spec compares
the binary search against, selecting the entry minimizing
`abs(candidate - pointerTimestamp)` with ties resolved toward the lower index. -/
def linearScanClosest (ts : List Int) (p : Int) : Nat :=
  (List.range ts.length).foldl
    (fun best j => if bsDist ts p j < bsDist ts p best then j else best) 0

/-- The active date range (`DateRange` in both chart files; the `end` field is
called `stop` here because `end` is reserved in Lean). -/
structure DateRange where
  start : Int
  stop : Int
deriving Repr, DecidableEq, Inhabited

/-- The `end` handler of the d3 brush (`SentimentChart.tsx` lines 579-589,
`SentimentChart_v2.tsx` lines 667-677): ignore events without a
`sourceEvent` (programmatic moves) or without a selection, otherwise invert
the two selection pixels through the overview x-scale and publish them via
`setDateRange`.  `prev` is the previously published range, which is kept
whenever the handler returns early. -/
def brushEndHandler (sourceEvent : Bool) (selection : Option (Int × Int))
    (invert : Int → Int) (prev : DateRange) : DateRange :=
  if sourceEvent = false then prev
  else
    match selection with
    | none => prev
    | some (x0, x1) => ⟨invert x0, invert x1⟩

/-- Modelled from the spec: the d3-brush library (an external dependency, not
part of `src/`) orders the selection endpoints of a user gesture and delivers
`null` as the end-event selection when the gesture collapsed to zero width
("a drag collapsed to zero width is rejected / not committed"). -/
def d3EndSelection (a b : Int) : Option (Int × Int) :=
  if min a b = max a b then none else some (min a b, max a b)

/-- A raw data point as delivered to `renderChart`: the result of
`parseTime(v[0])` (which is `null` on unparsable timestamps) plus the value. -/
structure RawPoint where
  date : Option Int
  value : Int
deriving Repr, DecidableEq, Inhabited

/-- A raw series (`SentimentData`): a name and its raw points. -/
structure RawSeries where
  name : String
  values : List RawPoint
deriving Repr, DecidableEq, Inhabited

/-- A formatted series (`FormattedSeries`): a name and its formatted points. -/
structure FormattedSeries where
  name : String
  values : List Pt
deriving Repr, DecidableEq, Inhabited

/-- The per-point filter of step (2) of `renderChart` in `SentimentChart.tsx`
(lines 238-241): a point with an unparsable (`null`) date is dropped, and an
in-range check with inclusive bounds keeps the rest. -/
def inRangePoint (r : DateRange) (v : RawPoint) : Option Pt :=
  match v.date with
  | none => none
  | some dt =>
    if r.start ≤ dt ∧ dt ≤ r.stop then some ⟨dt, v.value⟩ else none

/-- The per-series part of step (2) of `renderChart` in `SentimentChart.tsx`
(lines 232-245): parse/filter the points to the active range and re-sort by
timestamp (JavaScript `sort` is stable; `mergeSort` models it). -/
def formatValues (vs : List RawPoint) (r : DateRange) : List Pt :=
  (vs.filterMap (inRangePoint r)).mergeSort (fun a b => a.date ≤ b.date)

/-- Steps (1)-(2) of `renderChart` in `SentimentChart.tsx` (lines 228-246):
keep the series whose name is visible, then format each series' values. -/
def formatData (data : List RawSeries) (visible : String → Bool)
    (r : DateRange) : List FormattedSeries :=
  (data.filter (fun d => visible d.name)).map (fun d =>
    ⟨d.name, formatValues d.values r⟩)

/-- The width-derived point budget of `renderChart`
(`Math.max(100, Math.floor(width / 3))`, line 249). -/
def maxPointsPerLine (width : Nat) : Nat := max 100 (width / 3)

/-- The outcome of a `renderChart` pass: either the explicit
"No data points in the selected date range" placeholder text, or a chart
drawn from the decimated series. -/
inductive RenderOutput where
  | placeholder
  | chart (series : List FormattedSeries)
deriving Repr, DecidableEq

/-- Steps (1)-(3) of `renderChart` in `SentimentChart.tsx` (lines 228-263):
format the data, decimate each series to the width-derived budget, and render
the placeholder when there are no series or every series lost all its points. -/
def renderChart (data : List RawSeries) (visible : String → Bool)
    (r : DateRange) (width : Nat) : RenderOutput :=
  let decimated := (formatData data visible r).map (fun s =>
    ⟨s.name, decimateData s.values (maxPointsPerLine width)⟩)
  if decimated.length = 0 ∨ decimated.all (fun d => d.values.length = 0) then
    RenderOutput.placeholder
  else RenderOutput.chart decimated

/-- The series actually drawn by a render pass (none for the placeholder). -/
def drawnSeries : RenderOutput → List FormattedSeries
  | RenderOutput.placeholder => []
  | RenderOutput.chart s => s

/-- The total number of points drawn by a render pass. -/
def renderedPointCount (o : RenderOutput) : Nat :=
  ((drawnSeries o).map (fun s => s.values.length)).sum

/-- The `dateValues` lookup table built before the mousemove handler
(`SentimentChart.tsx` lines 373-386, `SentimentChart_v2.tsx` lines 441-452):
one write `(timestamp, seriesName, value)` per drawn point; a later write to
the same key overwrites an earlier one (JavaScript `Map.set`), so a lookup
returns the last write. -/
def lookupDateValue (fd : List FormattedSeries) (t : Int) (n : String) : Option Int :=
  ((fd.flatMap (fun s => s.values.map (fun q => (q.date, s.name, q.value)))).filter
      (fun w => w.1 = t ∧ w.2.1 = n)).getLast?.map (fun w => w.2.2)

/-- A tooltip cell of `SentimentChart.tsx`: either a numeric value or the
literal string `"N/A"` produced by `dateValues.get(ts)?.get(name) ?? "N/A"`
(line 447). -/
inductive TooltipCell where
  | val (v : Int)
  | na
deriving Repr, DecidableEq

/-- The tooltip rows built by the mousemove handler of `SentimentChart.tsx`
(lines 444-456): one row per drawn series, holding the series value at the
hovered timestamp or the "N/A" marker when the series has no point there. -/
def tooltipRowsV1 (fd : List FormattedSeries) (t : Int) : List (String × TooltipCell) :=
  fd.map (fun s =>
    (s.name,
      match lookupDateValue fd t s.name with
      | some v => TooltipCell.val v
      | none => TooltipCell.na))

/-- The tooltip rows built by the mousemove handler of `SentimentChart_v2.tsx`
(lines 510-521): one row per drawn series, but a series with no point at the
hovered timestamp falls back to `0` (`seriesValues?.get(series.name) ?? 0`). -/
def tooltipRowsV2 (fd : List FormattedSeries) (t : Int) : List (String × Int) :=
  fd.map (fun s => (s.name, (lookupDateValue fd t s.name).getD 0))

/-! ## Helper lemmas about `decimateData` -/

theorem decimateData_of_lt (data : List Pt) (m : Nat) (h : m < data.length) :
    decimateData data m =
      data.getD 0 default
        :: (List.range' 1 (m - 2)).map (fun i =>
            bucketMaxPoint data (bucketStart data.length m i)
              (bucketEnd data.length m i))
        ++ [data.getD (data.length - 1) default] := by
  unfold decimateData
  rw [if_neg (by omega)]

theorem decimateData_length (data : List Pt) (m : Nat) :
    (decimateData data m).length =
      if data.length ≤ m then data.length else m - 2 + 2 := by
  unfold decimateData
  split
  · rfl
  · simp

theorem getD_zero_of_ne_nil (data : List Pt) (h : data ≠ []) :
    some (data.getD 0 default) = data.head? := by
  cases data with
  | nil => exact absurd rfl h
  | cons a l => rfl

theorem getD_last_of_ne_nil (data : List Pt) (h : data ≠ []) :
    some (data.getD (data.length - 1) default) = data.getLast? := by
  have hlen : data.length - 1 < data.length := by
    cases data with
    | nil => exact absurd rfl h
    | cons a l => simp
  rw [List.getLast?_eq_getElem?, List.getD_eq_getElem?_getD,
    List.getElem?_eq_getElem hlen]
  rfl

theorem decimateData_head? (data : List Pt) (m : Nat) :
    (decimateData data m).head? = data.head? := by
  unfold decimateData
  split
  · rfl
  · rename_i h
    have hne : data ≠ [] := by
      intro hnil; rw [hnil] at h; exact h (by simp)
    rw [← getD_zero_of_ne_nil data hne]
    rfl

theorem decimateData_getLast? (data : List Pt) (m : Nat) :
    (decimateData data m).getLast? = data.getLast? := by
  unfold decimateData
  split
  · rfl
  · rename_i h
    have hne : data ≠ [] := by
      intro hnil; rw [hnil] at h; exact h (by simp)
    rw [← getD_last_of_ne_nil data hne, List.getLast?_concat]

theorem decimateData_of_le (data : List Pt) (m : Nat) (h : data.length ≤ m) :
    decimateData data m = data := by
  unfold decimateData
  rw [if_pos h]

/-! ## Helper lemmas about the bucket bounds -/

theorem bucketStart_mono (len m : Nat) {i j : Nat} (hij : i ≤ j) :
    bucketStart len m i ≤ bucketStart len m j :=
  Nat.div_le_div_right (Nat.mul_le_mul_right len hij)

theorem bucketEnd_eq_bucketStart_succ (len m i : Nat) :
    bucketEnd len m i = bucketStart len m (i + 1) := rfl

theorem bucketSize_bounds (len m i : Nat) (hm : 0 < m) :
    len / m ≤ bucketEnd len m i - bucketStart len m i ∧
    bucketEnd len m i - bucketStart len m i ≤ len / m + 1 := by
  have h : (i + 1) * len = i * len + len := by ring
  unfold bucketEnd bucketStart
  rw [h, Nat.add_div hm]
  generalize i * len % m = r1
  generalize len % m = r2
  generalize i * len / m = u
  generalize len / m = f
  split <;> omega

theorem bucketStart_lt_bucketEnd (len m i : Nat) (hm : 0 < m) (hlen : m ≤ len) :
    bucketStart len m i < bucketEnd len m i := by
  have h1 := (bucketSize_bounds len m i hm).1
  have h2 : 1 ≤ len / m := (Nat.one_le_div_iff hm).mpr hlen
  have h3 : bucketStart len m i ≤ bucketEnd len m i := by
    unfold bucketStart bucketEnd
    exact Nat.div_le_div_right (Nat.mul_le_mul_right len (by omega))
  generalize len / m = f at h1 h2
  omega

theorem bucketEnd_le_pred_len (len m i : Nat) (hm : 2 ≤ m) (hi : i ≤ m - 2)
    (hlen : m < len) : bucketEnd len m i ≤ len - 1 := by
  have h1 : bucketEnd len m i ≤ bucketStart len m (m - 1) := by
    unfold bucketEnd bucketStart
    exact Nat.div_le_div_right (Nat.mul_le_mul_right len (by omega))
  have h2 : bucketStart len m (m - 1) < len := by
    have h3 : (m - 1) * len < m * len :=
      (Nat.mul_lt_mul_right (show 0 < len by omega)).mpr (show m - 1 < m by omega)
    unfold bucketStart
    rw [Nat.div_lt_iff_lt_mul (show 0 < m by omega), Nat.mul_comm len m]
    exact h3
  omega

/-! ## Helper lemmas about the inner argmax loop -/

theorem bucketFold_spec (data : List Pt) (js : List Nat) (mi : Nat) :
    (List.foldl (fun a j =>
        if (data.getD j default).value > (data.getD a default).value then j else a)
        mi js = mi ∨
      List.foldl (fun a j =>
        if (data.getD j default).value > (data.getD a default).value then j else a)
        mi js ∈ js) ∧
    (data.getD mi default).value ≤
      (data.getD (List.foldl (fun a j =>
        if (data.getD j default).value > (data.getD a default).value then j else a)
        mi js) default).value ∧
    ∀ j ∈ js, (data.getD j default).value ≤
      (data.getD (List.foldl (fun a j =>
        if (data.getD j default).value > (data.getD a default).value then j else a)
        mi js) default).value := by
  induction js generalizing mi with
  | nil => exact ⟨Or.inl rfl, le_refl _, by simp⟩
  | cons j js ih =>
    simp only [List.foldl_cons]
    obtain ⟨hmem, hge, hall⟩ :=
      ih (if (data.getD j default).value > (data.getD mi default).value then j else mi)
    by_cases hc : (data.getD j default).value > (data.getD mi default).value
    · rw [if_pos hc] at hmem hge hall ⊢
      refine ⟨?_, ?_, ?_⟩
      · rcases hmem with h | h
        · right; rw [h]; exact List.mem_cons_self _ _
        · right; exact List.mem_cons_of_mem _ h
      · exact le_trans (le_of_lt hc) hge
      · intro j1 hj1
        rcases List.mem_cons.mp hj1 with h | h
        · rw [h]; exact hge
        · exact hall j1 h
    · rw [if_neg hc] at hmem hge hall ⊢
      refine ⟨?_, hge, ?_⟩
      · rcases hmem with h | h
        · left; exact h
        · right; exact List.mem_cons_of_mem _ h
      · intro j1 hj1
        rcases List.mem_cons.mp hj1 with h | h
        · rw [h]
          exact le_trans (not_lt.mp hc) hge
        · exact hall j1 h

theorem bucketMaxIdx_spec (data : List Pt) (bs be : Nat) (h : bs < be) :
    bs ≤ bucketMaxIdx data bs be ∧ bucketMaxIdx data bs be < be ∧
    ∀ j, bs ≤ j → j < be →
      (data.getD j default).value ≤
        (data.getD (bucketMaxIdx data bs be) default).value := by
  obtain ⟨hmem, _, hall⟩ := bucketFold_spec data (List.range' bs (be - bs)) bs
  unfold bucketMaxIdx
  refine ⟨?_, ?_, ?_⟩
  · rcases hmem with h1 | h1
    · rw [h1]
    · exact (List.mem_range'_1.mp h1).1
  · rcases hmem with h1 | h1
    · rw [h1]; exact h
    · have := (List.mem_range'_1.mp h1).2
      omega
  · intro j hj1 hj2
    exact hall j (List.mem_range'_1.mpr ⟨hj1, by omega⟩)

theorem bucketMaxPoint_eq_getD_idx (data : List Pt) (bs be : Nat) :
    bucketMaxPoint data bs be = data.getD (bucketMaxIdx data bs be) default := by
  unfold bucketMaxPoint bucketMaxIdx
  generalize List.range' bs (be - bs) = js
  induction js generalizing bs with
  | nil => rfl
  | cons j js ih =>
    rw [List.map_cons, List.foldl_cons, List.foldl_cons]
    by_cases hc : (data.getD j default).value > (data.getD bs default).value
    · rw [if_pos hc, if_pos hc]
      exact ih j
    · rw [if_neg hc, if_neg hc]
      exact ih bs

/-! ## Further helper lemmas about lists -/

theorem map_getD_range (data : List Pt) :
    (List.range data.length).map (fun i => data.getD i default) = data := by
  induction data with
  | nil => rfl
  | cons a l ih =>
    rw [List.length_cons, List.range_succ_eq_map, List.map_cons, List.map_map]
    have hfun : ∀ i ∈ List.range l.length,
        ((fun i => (a :: l).getD i default) ∘ Nat.succ) i = l.getD i default := by
      intro i hi
      simp
    rw [List.map_congr_left hfun, ih]
    rfl

theorem getD_date_mono (data : List Pt)
    (hs : List.Pairwise (fun a b => a.date ≤ b.date) data)
    {i j : Nat} (hij : i ≤ j) (hj : j < data.length) :
    (data.getD i default).date ≤ (data.getD j default).date := by
  rcases Nat.eq_or_lt_of_le hij with h | h
  · rw [h]
  · have hi : i < data.length := lt_trans h hj
    rw [List.getD_eq_getElem data default hi, List.getD_eq_getElem data default hj]
    exact (List.pairwise_iff_getElem.mp hs) i j hi hj h

theorem getD_mem_of_lt (data : List Pt) (i : Nat) (h : i < data.length) :
    data.getD i default ∈ data := by
  rw [List.getD_eq_getElem data default h]
  exact List.getElem_mem h

theorem decimateData_getD_interior (data : List Pt) (m i : Nat)
    (hm : m < data.length) (h1 : 1 ≤ i) (h2 : i ≤ m - 2) :
    (decimateData data m).getD i default =
      bucketMaxPoint data (bucketStart data.length m i)
        (bucketEnd data.length m i) := by
  rw [decimateData_of_lt data m hm]
  obtain ⟨i1, rfl⟩ : ∃ i1, i = i1 + 1 := ⟨i - 1, by omega⟩
  rw [List.getD_append _ _ _ _ (by simp; omega), List.getD_cons_succ,
    List.getD_eq_getElem _ _ (by simp; omega), List.getElem_map,
    List.getElem_range']
  have h3 : 1 + 1 * i1 = i1 + 1 := by ring
  rw [h3]

theorem bucket_cover (len m k : Nat) (hm : 2 < m)
    (hk1 : bucketStart len m 1 ≤ k) (hk2 : k < bucketEnd len m (m - 2)) :
    ∃ i, (1 ≤ i ∧ i ≤ m - 2 ∧ bucketStart len m i ≤ k ∧ k < bucketEnd len m i) ∧
      ∀ j, 1 ≤ j → j ≤ m - 2 → bucketStart len m j ≤ k → k < bucketEnd len m j →
        j = i := by
  have hi1 : 1 ≤ Nat.findGreatest (fun j => bucketStart len m j ≤ k) (m - 2) :=
    Nat.le_findGreatest (P := fun j => bucketStart len m j ≤ k) (by omega) hk1
  have hiP : bucketStart len m
      (Nat.findGreatest (fun j => bucketStart len m j ≤ k) (m - 2)) ≤ k :=
    Nat.findGreatest_spec (P := fun j => bucketStart len m j ≤ k) (m := 1)
      (by omega) hk1
  have hi2 : Nat.findGreatest (fun j => bucketStart len m j ≤ k) (m - 2) ≤ m - 2 :=
    Nat.findGreatest_le (m - 2)
  have hupper : k < bucketEnd len m
      (Nat.findGreatest (fun j => bucketStart len m j ≤ k) (m - 2)) := by
    rcases Nat.eq_or_lt_of_le hi2 with hc | hc
    · rw [hc]; exact hk2
    · have hnP : ¬ bucketStart len m
          (Nat.findGreatest (fun j => bucketStart len m j ≤ k) (m - 2) + 1) ≤ k :=
        Nat.findGreatest_is_greatest (P := fun j => bucketStart len m j ≤ k)
          (n := m - 2) (by omega) (by omega)
      rw [bucketEnd_eq_bucketStart_succ]
      omega
  refine ⟨Nat.findGreatest (fun j => bucketStart len m j ≤ k) (m - 2),
    ⟨hi1, hi2, hiP, hupper⟩, ?_⟩
  intro j hj1 hj2 hjs hje
  by_contra hne
  rcases Nat.lt_or_ge j
      (Nat.findGreatest (fun j => bucketStart len m j ≤ k) (m - 2))
    with hji | hij
  · have hmono := bucketStart_mono len m (show j + 1 ≤
      Nat.findGreatest (fun j => bucketStart len m j ≤ k) (m - 2) by omega)
    rw [bucketEnd_eq_bucketStart_succ] at hje
    omega
  · have hij' : Nat.findGreatest (fun j => bucketStart len m j ≤ k) (m - 2) < j := by
      omega
    exact Nat.findGreatest_is_greatest (P := fun j => bucketStart len m j ≤ k)
      hij' hj2 hjs

/-! ## Claim C2 -/

/-- Counterexample to Claim C2: for `length = 5`, `maxPoints = 3` the index 3
is interior (`1 <= 3 <= length - 2`), yet it belongs to no bucket of the code:
the only interior bucket is `i = 1` with
`[bucketStart, bucketEnd) = [1, 3)`, which does not contain 3.  Consequently
the point at index 3 — `(3,9)` — is not a candidate and is dropped. -/
theorem c2_counterexample :
    (1 ≤ 3 ∧ 3 ≤ 5 - 2) ∧
    (∀ j : Nat, 1 ≤ j → j ≤ 3 - 2 →
      ¬(bucketStart 5 3 j ≤ 3 ∧ 3 < bucketEnd 5 3 j)) ∧
    (⟨3,9⟩ : Pt) ∉ decimateData [⟨0,1⟩, ⟨1,5⟩, ⟨2,2⟩, ⟨3,9⟩, ⟨4,1⟩] 3 := by
  refine ⟨by decide, ?_, by decide⟩
  intro j h1 h2
  have hj : j = 1 := by omega
  subst hj
  decide

/-- Claim C2 (amended): for `maxPoints > 2` and `length > maxPoints`, the
interior buckets of `decimateData` are the contiguous half-open intervals
`[floor(i*length/maxPoints), floor((i+1)*length/maxPoints))` for
`i = 1, ..., maxPoints - 2`; each bucket is non-empty with size
`floor(length/maxPoints)` or `floor(length/maxPoints) + 1`; they tile exactly
the range `[floor(length/maxPoints), floor((maxPoints-1)*length/maxPoints))`
(each such index lies in exactly one bucket) — a sub-range of `[1, length-2]`,
so interior indices outside it are never candidates; and from the i-th bucket
the point with the maximum value is kept (the earliest such point on ties). -/
theorem bucket_structure (len m : Nat) (hm : 2 < m) (hlen : m < len) :
    (∀ i : Nat, bucketEnd len m i = bucketStart len m (i + 1)) ∧
    (∀ i : Nat, 1 ≤ i → i ≤ m - 2 →
      len / m ≤ bucketEnd len m i - bucketStart len m i ∧
      bucketEnd len m i - bucketStart len m i ≤ len / m + 1 ∧
      bucketStart len m i < bucketEnd len m i) ∧
    1 ≤ bucketStart len m 1 ∧
    bucketEnd len m (m - 2) ≤ len - 1 ∧
    (∀ k : Nat, bucketStart len m 1 ≤ k → k < bucketEnd len m (m - 2) →
      ∃ i, (1 ≤ i ∧ i ≤ m - 2 ∧ bucketStart len m i ≤ k ∧ k < bucketEnd len m i) ∧
        ∀ j, 1 ≤ j → j ≤ m - 2 → bucketStart len m j ≤ k →
          k < bucketEnd len m j → j = i) ∧
    (∀ (data : List Pt), data.length = len → ∀ i, 1 ≤ i → i ≤ m - 2 →
      (∃ j, bucketStart len m i ≤ j ∧ j < bucketEnd len m i ∧
        (decimateData data m).getD i default = data.getD j default) ∧
      (∀ j, bucketStart len m i ≤ j → j < bucketEnd len m i →
        (data.getD j default).value ≤
          ((decimateData data m).getD i default).value)) := by
  have hm0 : 0 < m := by omega
  have hmle : m ≤ len := le_of_lt hlen
  refine ⟨fun i => bucketEnd_eq_bucketStart_succ len m i, ?_, ?_, ?_, ?_, ?_⟩
  · intro i h1 h2
    obtain ⟨hs1, hs2⟩ := bucketSize_bounds len m i hm0
    exact ⟨hs1, hs2, bucketStart_lt_bucketEnd len m i hm0 hmle⟩
  · show 1 ≤ 1 * len / m
    rw [Nat.one_mul]
    exact (Nat.one_le_div_iff hm0).mpr hmle
  · exact bucketEnd_le_pred_len len m (m - 2) (by omega) (le_refl _) hlen
  · intro k hk1 hk2
    exact bucket_cover len m k hm hk1 hk2
  · intro data hd i h1 h2
    have hmlen : m < data.length := by omega
    have hbb : bucketStart data.length m i < bucketEnd data.length m i :=
      bucketStart_lt_bucketEnd data.length m i hm0 (by omega)
    obtain ⟨hb1, hb2, hb3⟩ :=
      bucketMaxIdx_spec data (bucketStart data.length m i)
        (bucketEnd data.length m i) hbb
    rw [decimateData_getD_interior data m i hmlen h1 h2, ← hd]
    rw [bucketMaxPoint_eq_getD_idx]
    exact ⟨⟨bucketMaxIdx data (bucketStart data.length m i)
        (bucketEnd data.length m i), hb1, hb2, rfl⟩, hb3⟩

/-- Witness for Claim C2 (amended) at `length = 5`, `maxPoints = 3` and the
concrete five-point series of the spec scenario. -/
theorem bucket_structure_witness :
    1 ≤ bucketStart 5 3 1 ∧ bucketEnd 5 3 (3 - 2) ≤ 5 - 1 ∧
    (∃ j, bucketStart 5 3 1 ≤ j ∧ j < bucketEnd 5 3 1 ∧
      (decimateData [⟨0,1⟩, ⟨1,5⟩, ⟨2,2⟩, ⟨3,9⟩, ⟨4,1⟩] 3).getD 1 default
        = [⟨0,1⟩, ⟨1,5⟩, ⟨2,2⟩, ⟨3,9⟩, ⟨4,1⟩].getD j default) := by
  obtain ⟨h1, h2, h3, h4, h5, h6⟩ := bucket_structure 5 3 (by decide) (by decide)
  exact ⟨h3, h4,
    (h6 [⟨0,1⟩, ⟨1,5⟩, ⟨2,2⟩, ⟨3,9⟩, ⟨4,1⟩] (by decide) 1 (by decide)
      (by decide)).1⟩

/-! ## Helper lemmas towards Claim C10 -/

theorem decimIdxs_facts (data : List Pt) (m : Nat) (hlt : m < data.length) :
    (decimIdxs data m).Pairwise (· ≤ ·) ∧
    (∀ i ∈ decimIdxs data m, i < data.length) := by
  have hmem1 : ∀ i ∈ List.range' 1 (m - 2), 1 ≤ i ∧ i ≤ m - 2 := by
    intro i hi
    have := List.mem_range'_1.mp hi
    omega
  have hJ : ∀ i, 1 ≤ i → i ≤ m - 2 →
      bucketStart data.length m i ≤
        bucketMaxIdx data (bucketStart data.length m i)
          (bucketEnd data.length m i) ∧
      bucketMaxIdx data (bucketStart data.length m i)
          (bucketEnd data.length m i) <
        bucketEnd data.length m i ∧
      bucketMaxIdx data (bucketStart data.length m i)
          (bucketEnd data.length m i) ≤
        data.length - 1 := by
    intro i h1 h2
    have hm0 : 0 < m := by omega
    have hbb := bucketStart_lt_bucketEnd data.length m i hm0 (by omega)
    obtain ⟨ha, hb, _⟩ := bucketMaxIdx_spec data _ _ hbb
    have hc := bucketEnd_le_pred_len data.length m i (by omega) h2 hlt
    exact ⟨ha, hb, by omega⟩
  constructor
  · unfold decimIdxs
    rw [List.pairwise_append]
    refine ⟨?_, List.pairwise_singleton _ _, ?_⟩
    · rw [List.pairwise_cons]
      refine ⟨fun b hb => Nat.zero_le b, ?_⟩
      rw [List.pairwise_map]
      refine (List.pairwise_lt_range' 1 (m - 2)).imp_of_mem ?_
      intro a b ha hb hab
      obtain ⟨ha1, ha2⟩ := hmem1 a ha
      obtain ⟨hb1, hb2⟩ := hmem1 b hb
      have hJa := hJ a ha1 ha2
      have hJb := hJ b hb1 hb2
      have hmono : bucketEnd data.length m a ≤ bucketStart data.length m b := by
        rw [bucketEnd_eq_bucketStart_succ]
        exact bucketStart_mono data.length m (by omega)
      omega
    · intro a ha b hb
      rw [List.mem_singleton] at hb
      subst hb
      rcases List.mem_cons.mp ha with h | h
      · subst h; exact Nat.zero_le _
      · obtain ⟨i, hi, rfl⟩ := List.mem_map.mp h
        obtain ⟨h1, h2⟩ := hmem1 i hi
        exact (hJ i h1 h2).2.2
  · intro i hi
    unfold decimIdxs at hi
    rcases List.mem_append.mp hi with h | h
    · rcases List.mem_cons.mp h with h1 | h1
      · subst h1; omega
      · obtain ⟨j, hj, rfl⟩ := List.mem_map.mp h1
        obtain ⟨h1, h2⟩ := hmem1 j hj
        have := (hJ j h1 h2).2.2
        omega
    · rw [List.mem_singleton] at h
      subst h
      omega

theorem decimateData_eq_map_decimIdxs (data : List Pt) (m : Nat)
    (hlt : m < data.length) :
    decimateData data m = (decimIdxs data m).map (fun i => data.getD i default) := by
  rw [decimateData_of_lt data m hlt]
  unfold decimIdxs
  simp only [List.map_append, List.map_cons, List.map_map, List.map_singleton]
  congr 2
  apply List.map_congr_left
  intro i hi
  rw [Function.comp_apply]
  exact bucketMaxPoint_eq_getD_idx data _ _

theorem subseq_tail_props (data : List Pt) (res : List Pt) (idxs : List Nat)
    (hpw : idxs.Pairwise (· ≤ ·))
    (hbd : ∀ i ∈ idxs, i < data.length)
    (heq : res = idxs.map (fun i => data.getD i default)) :
    (∀ q ∈ res, q ∈ data) ∧
    (List.Pairwise (fun a b => a.date ≤ b.date) data →
      List.Pairwise (fun a b => a.date ≤ b.date) res) := by
  constructor
  · intro q hq
    rw [heq] at hq
    obtain ⟨i, hi, rfl⟩ := List.mem_map.mp hq
    exact getD_mem_of_lt data i (hbd i hi)
  · intro hs
    rw [heq, List.pairwise_map]
    exact hpw.imp_of_mem
      (fun {a b} ha hb hab => getD_date_mono data hs hab (hbd b hb))

/-! ## Claim C10 -/

/-- Claim C10: for every input and every `maxPoints`, the sequence returned by
`decimateData` is a subsequence of the input taken at non-decreasing indices:
some non-decreasing list of in-range indices maps exactly onto the result, so
the original chronological order is preserved (first point, one bucket
representative per bucket in bucket order, last point — and a timestamp-sorted
input stays timestamp-sorted), and every output point is an element of the
input (no interpolated or fabricated points). -/
theorem decimateData_subsequence (data : List Pt) (m : Nat) :
    ∃ idxs : List Nat,
      idxs.Pairwise (· ≤ ·) ∧
      (∀ i ∈ idxs, i < data.length) ∧
      decimateData data m = idxs.map (fun i => data.getD i default) ∧
      (∀ q ∈ decimateData data m, q ∈ data) ∧
      (List.Pairwise (fun a b => a.date ≤ b.date) data →
        List.Pairwise (fun a b => a.date ≤ b.date) (decimateData data m)) := by
  by_cases hlen : data.length ≤ m
  · have heq : decimateData data m =
        (List.range data.length).map (fun i => data.getD i default) := by
      rw [decimateData_of_le data m hlen, map_getD_range]
    have hpw : (List.range data.length).Pairwise (· ≤ ·) :=
      (List.pairwise_lt_range data.length).imp le_of_lt
    have hbd : ∀ i ∈ List.range data.length, i < data.length :=
      fun i hi => List.mem_range.mp hi
    obtain ⟨h4, h5⟩ := subseq_tail_props data _ _ hpw hbd heq
    exact ⟨List.range data.length, hpw, hbd, heq, h4, h5⟩
  · have hlt : m < data.length := by omega
    obtain ⟨hpw, hbd⟩ := decimIdxs_facts data m hlt
    have heq := decimateData_eq_map_decimIdxs data m hlt
    obtain ⟨h4, h5⟩ := subseq_tail_props data _ _ hpw hbd heq
    exact ⟨decimIdxs data m, hpw, hbd, heq, h4, h5⟩

/-- Witness for Claim C10: instantiating the subsequence theorem on the
concrete five-point series shows that a timestamp-sorted input yields a
timestamp-sorted decimated output. -/
theorem decimateData_subsequence_witness :
    List.Pairwise (fun a b => a.date ≤ b.date)
      (decimateData [⟨0,1⟩, ⟨1,5⟩, ⟨2,2⟩, ⟨3,9⟩, ⟨4,1⟩] 3) := by
  obtain ⟨idxs, h1, h2, h3, h4, h5⟩ :=
    decimateData_subsequence [⟨0,1⟩, ⟨1,5⟩, ⟨2,2⟩, ⟨3,9⟩, ⟨4,1⟩] 3
  exact h5 (by decide)

/-! ## Claim C7 -/

/-- Claim C7: `decimateData` is the identity function whenever
`length(points) <= maxPoints`: it returns the input sequence unchanged. -/
theorem decimateData_identity (data : List Pt) (m : Nat)
    (h : data.length ≤ m) : decimateData data m = data := by
  unfold decimateData
  rw [if_pos h]

/-- Witness for Claim C7 at a concrete two-point input with `maxPoints = 3`. -/
theorem decimateData_identity_witness :
    decimateData [⟨0,1⟩, ⟨5,2⟩] 3 = [⟨0,1⟩, ⟨5,2⟩] :=
  decimateData_identity [⟨0,1⟩, ⟨5,2⟩] 3 (by decide)

/-! ## Claim C1 -/

/-- Counterexample to Claim C1: on the five-point series
`[(0,1),(1,5),(2,2),(3,9),(4,1)]` with `maxPoints = 3` the single interior
bucket is `[floor(5/3), floor(10/3)) = {1, 2}`, so `decimateData` keeps
`(1,5)`; the point `(3,9)` claimed by the spec is not in the result. -/
theorem c1_counterexample :
    decimateData [⟨0,1⟩, ⟨1,5⟩, ⟨2,2⟩, ⟨3,9⟩, ⟨4,1⟩] 3
        = [⟨0,1⟩, ⟨1,5⟩, ⟨4,1⟩] ∧
    (⟨3,9⟩ : Pt) ∉ decimateData [⟨0,1⟩, ⟨1,5⟩, ⟨2,2⟩, ⟨3,9⟩, ⟨4,1⟩] 3 := by
  decide

/-- Claim C1 (amended): for the input series
`[(t0,1),(t1,5),(t2,2),(t3,9),(t4,1)]` with `maxPoints = 3`, `decimateData`
returns `(t0,1)` and `(t4,1)` plus exactly one interior point, which is
`(t1,5)`: the maximum over the single middle bucket spanning indices 1 through
2 (`bucketStart = floor(1*5/3) = 1`, `bucketEnd = floor(2*5/3) = 3`,
exclusive); index 3 lies in no bucket, so `(t3,9)` is dropped. -/
theorem c1_amended :
    decimateData [⟨0,1⟩, ⟨1,5⟩, ⟨2,2⟩, ⟨3,9⟩, ⟨4,1⟩] 3
        = [⟨0,1⟩, ⟨1,5⟩, ⟨4,1⟩] ∧
    (decimateData [⟨0,1⟩, ⟨1,5⟩, ⟨2,2⟩, ⟨3,9⟩, ⟨4,1⟩] 3).length = 3 ∧
    bucketStart 5 3 1 = 1 ∧ bucketEnd 5 3 1 = 3 ∧
    bucketMaxPoint [⟨0,1⟩, ⟨1,5⟩, ⟨2,2⟩, ⟨3,9⟩, ⟨4,1⟩] 1 3 = ⟨1,5⟩ := by
  decide

/-! ## Claim C6 -/

/-- Counterexample to Claim C6: for the non-empty input `[(0,0),(1,0)]` with
`maxPoints = 1` the result has two points, so `length(result) <= maxPoints`
fails (the degenerate branch always keeps both endpoints). -/
theorem c6_counterexample :
    (decimateData [⟨0,0⟩, ⟨1,0⟩] 1).length = 2 ∧
    ¬((decimateData [⟨0,0⟩, ⟨1,0⟩] 1).length ≤ 1) := by
  decide

/-- Claim C6 (amended): `decimateData` keeps the first and the last element of
the input in place (hence returns them for every non-empty input), its result
length is at most `maxPoints` whenever `maxPoints >= 2` (and at most
`max 2 maxPoints` in general — for `maxPoints < 2` a decimated non-empty input
still yields the two endpoints), for `maxPoints <= 2` a longer input returns
exactly the degenerate two-point result, and empty input returns empty
output. -/
theorem decimateData_endpoints_length (data : List Pt) (m : Nat) :
    (decimateData data m).head? = data.head? ∧
    (decimateData data m).getLast? = data.getLast? ∧
    (decimateData data m).length ≤ max 2 m ∧
    (2 ≤ m → (decimateData data m).length ≤ m) ∧
    (m ≤ 2 → m < data.length →
      decimateData data m
        = [data.getD 0 default, data.getD (data.length - 1) default]) ∧
    decimateData ([] : List Pt) m = [] := by
  refine ⟨decimateData_head? data m, decimateData_getLast? data m, ?_, ?_, ?_, ?_⟩
  · rw [decimateData_length]
    split <;> omega
  · intro hm
    rw [decimateData_length]
    split <;> omega
  · intro hm hlen
    rw [decimateData_of_lt data m hlen]
    have : m - 2 = 0 := by omega
    rw [this]
    rfl
  · unfold decimateData
    simp

/-- Witness for Claim C6 (amended) at the concrete input
`[(0,1),(1,7),(2,3)]` with `maxPoints = 2`. -/
theorem decimateData_endpoints_length_witness :
    (decimateData [⟨0,1⟩, ⟨1,7⟩, ⟨2,3⟩] 2).length ≤ 2 ∧
    decimateData [⟨0,1⟩, ⟨1,7⟩, ⟨2,3⟩] 2 = [⟨0,1⟩, ⟨2,3⟩] := by
  obtain ⟨h1, h2, h3, h4, h5, h6⟩ :=
    decimateData_endpoints_length [⟨0,1⟩, ⟨1,7⟩, ⟨2,3⟩] 2
  exact ⟨h4 (by decide), (h5 (by decide) (by decide)).trans (by decide)⟩

/-! ## Claim C3: binary-search nearest-timestamp lookup -/

theorem tsGetD_mono (ts : List Int) (hs : List.Pairwise (· ≤ ·) ts)
    {i j : Nat} (hij : i ≤ j) (hj : j < ts.length) :
    tsGetD ts i ≤ tsGetD ts j := by
  rcases Nat.eq_or_lt_of_le hij with h | h
  · rw [h]
  · have hi : i < ts.length := lt_trans h hj
    unfold tsGetD
    rw [List.getD_eq_getElem ts 0 hi, List.getD_eq_getElem ts 0 hj]
    exact (List.pairwise_iff_getElem.mp hs) i j hi hj h

theorem bsearchLoop_spec (ts : List Int) (p : Int)
    (hs : List.Pairwise (· ≤ ·) ts) :
    ∀ (fuel left : Nat) (right : Int) (closest : Nat),
      closest < ts.length → right < (ts.length : Int) →
      (right + 1 - (left : Int)).toNat < fuel →
      (∀ k : Nat, k < ts.length → ((k : Int) < (left : Int) ∨ right < (k : Int)) →
        bsDist ts p closest ≤ bsDist ts p k) →
      bsearchLoop ts p fuel left right closest < ts.length ∧
      ∀ k : Nat, k < ts.length →
        bsDist ts p (bsearchLoop ts p fuel left right closest) ≤ bsDist ts p k := by
  intro fuel
  induction fuel with
  | zero =>
    intro left right closest hc hr hf hinv
    omega
  | succ fuel ih =>
    intro left right closest hc hr hf hinv
    simp only [bsearchLoop]
    by_cases hlr : (left : Int) ≤ right
    · rw [if_pos hlr]
      have hmid1 : left ≤ (left + right.toNat) / 2 := by omega
      have hmid2 : ((left + right.toNat) / 2 : Nat) ≤ right.toNat := by omega
      have hmidlt : (left + right.toNat) / 2 < ts.length := by omega
      have hcl1 : (if bsDist ts p ((left + right.toNat) / 2) < bsDist ts p closest
          then (left + right.toNat) / 2 else closest) < ts.length := by
        split
        · exact hmidlt
        · exact hc
      have hcl2 : bsDist ts p (if bsDist ts p ((left + right.toNat) / 2) <
            bsDist ts p closest then (left + right.toNat) / 2 else closest) ≤
          bsDist ts p closest := by
        split
        · rename_i h
          exact le_of_lt h
        · exact le_refl _
      have hcl3 : bsDist ts p (if bsDist ts p ((left + right.toNat) / 2) <
            bsDist ts p closest then (left + right.toNat) / 2 else closest) ≤
          bsDist ts p ((left + right.toNat) / 2) := by
        split
        · exact le_refl _
        · rename_i h
          exact le_of_not_lt h
      by_cases hdir : tsGetD ts ((left + right.toNat) / 2) < p
      · rw [if_pos hdir]
        apply ih
        · exact hcl1
        · exact hr
        · omega
        · intro k hk hout
          rcases hout with hout | hout
          · -- k ≤ mid : on or left of mid, all such are at least as far as mid
            have hkm : tsGetD ts k ≤ tsGetD ts ((left + right.toNat) / 2) :=
              tsGetD_mono ts hs (by omega) hmidlt
            have : bsDist ts p ((left + right.toNat) / 2) ≤ bsDist ts p k := by
              simp only [bsDist]
              omega
            omega
          · exact le_trans hcl2 (hinv k hk (Or.inr hout))
      · rw [if_neg hdir]
        apply ih
        · exact hcl1
        · omega
        · omega
        · intro k hk hout
          rcases hout with hout | hout
          · exact le_trans hcl2 (hinv k hk (Or.inl hout))
          · -- mid ≤ k : at or right of mid, all such are at least as far as mid
            have hkm : tsGetD ts ((left + right.toNat) / 2) ≤ tsGetD ts k :=
              tsGetD_mono ts hs (by omega) hk
            have hple : p ≤ tsGetD ts ((left + right.toNat) / 2) := le_of_not_lt hdir
            have : bsDist ts p ((left + right.toNat) / 2) ≤ bsDist ts p k := by
              simp only [bsDist]
              omega
            omega
    · rw [if_neg hlr]
      refine ⟨hc, ?_⟩
      intro k hk
      exact hinv k hk (by omega)

theorem linearFold_spec (ts : List Int) (p : Int) (js : List Nat) (b : Nat) :
    (List.foldl (fun best j => if bsDist ts p j < bsDist ts p best then j else best)
        b js = b ∨
      List.foldl (fun best j => if bsDist ts p j < bsDist ts p best then j else best)
        b js ∈ js) ∧
    bsDist ts p (List.foldl (fun best j =>
        if bsDist ts p j < bsDist ts p best then j else best) b js) ≤
      bsDist ts p b ∧
    ∀ j ∈ js, bsDist ts p (List.foldl (fun best j =>
        if bsDist ts p j < bsDist ts p best then j else best) b js) ≤
      bsDist ts p j := by
  induction js generalizing b with
  | nil => exact ⟨Or.inl rfl, le_refl _, by simp⟩
  | cons j js ih =>
    simp only [List.foldl_cons]
    obtain ⟨hmem, hge, hall⟩ := ih (if bsDist ts p j < bsDist ts p b then j else b)
    by_cases hc : bsDist ts p j < bsDist ts p b
    · rw [if_pos hc] at hmem hge hall ⊢
      refine ⟨?_, le_trans hge (le_of_lt hc), ?_⟩
      · rcases hmem with h | h
        · right; rw [h]; exact List.mem_cons_self _ _
        · right; exact List.mem_cons_of_mem _ h
      · intro j1 hj1
        rcases List.mem_cons.mp hj1 with h | h
        · rw [h]; exact hge
        · exact hall j1 h
    · rw [if_neg hc] at hmem hge hall ⊢
      refine ⟨?_, hge, ?_⟩
      · rcases hmem with h | h
        · left; exact h
        · right; exact List.mem_cons_of_mem _ h
      · intro j1 hj1
        rcases List.mem_cons.mp hj1 with h | h
        · rw [h]
          exact le_trans hge (le_of_not_lt hc)
        · exact hall j1 h

theorem linearScanClosest_spec (ts : List Int) (p : Int) (hne : ts ≠ []) :
    linearScanClosest ts p < ts.length ∧
    ∀ k, k < ts.length →
      bsDist ts p (linearScanClosest ts p) ≤ bsDist ts p k := by
  have hpos : 0 < ts.length := List.length_pos.mpr hne
  obtain ⟨hmem, _, hall⟩ := linearFold_spec ts p (List.range ts.length) 0
  unfold linearScanClosest
  constructor
  · rcases hmem with h | h
    · rw [h]; exact hpos
    · exact List.mem_range.mp h
  · intro k hk
    exact hall k (List.mem_range.mpr hk)

/-- Claim C3 (amended): for every non-empty sorted array of distinct
timestamps and every pointer timestamp, the binary search of the mousemove
handler returns an in-range index whose timestamp minimizes
`abs(candidate - pointerTimestamp)` over the whole array; whenever no two
entries are equidistant from the pointer (in particular whenever the minimizer
is unique) it returns the same timestamp as the lower-index-tie linear scan.
On an exact tie it may return either of the two nearest timestamps — the first
one encountered during the search narrowing, which is not always the lower
index. -/
theorem bsearch_refines_linear_scan (ts : List Int) (p : Int)
    (hs : List.Pairwise (· < ·) ts) (hne : ts ≠ []) :
    (bsClosest ts p < ts.length ∧
      ∀ k, k < ts.length → bsDist ts p (bsClosest ts p) ≤ bsDist ts p k) ∧
    ((∀ j, j < ts.length → ∀ k, k < ts.length → j < k →
        bsDist ts p j ≠ bsDist ts p k) →
      tsGetD ts (bsClosest ts p) = tsGetD ts (linearScanClosest ts p)) := by
  have hle : List.Pairwise (· ≤ ·) ts := hs.imp le_of_lt
  have hpos : 0 < ts.length := List.length_pos.mpr hne
  have hmain := bsearchLoop_spec ts p hle (ts.length + 1) 0 ((ts.length : Int) - 1) 0
    hpos (by omega) (by omega) (by intro k hk hout; exfalso; omega)
  rw [show bsearchLoop ts p (ts.length + 1) 0 ((ts.length : Int) - 1) 0
      = bsClosest ts p from rfl] at hmain
  obtain ⟨hblt, hbmin⟩ := hmain
  refine ⟨⟨hblt, hbmin⟩, ?_⟩
  intro hdistinct
  obtain ⟨hllt, hlmin⟩ := linearScanClosest_spec ts p hne
  have h1 : bsDist ts p (bsClosest ts p) = bsDist ts p (linearScanClosest ts p) :=
    le_antisymm (hbmin _ hllt) (hlmin _ hblt)
  rcases Nat.lt_trichotomy (bsClosest ts p) (linearScanClosest ts p) with h | h | h
  · exact absurd h1 (hdistinct _ hblt _ hllt h)
  · rw [h]
  · exact absurd h1.symm (hdistinct _ hllt _ hblt h)

/-- Counterexample to Claim C3: on the sorted distinct timestamps
`[0,10,20,30,40,50,60]` with pointer timestamp `45` (an exact tie between `40`
and `50`), the binary search returns index 5 (timestamp `50`, visited first
during narrowing) while the lower-index-tie linear scan returns index 4
(timestamp `40`). -/
theorem c3_counterexample :
    List.Pairwise (· < ·) ([0, 10, 20, 30, 40, 50, 60] : List Int) ∧
    bsClosest [0, 10, 20, 30, 40, 50, 60] 45 = 5 ∧
    linearScanClosest [0, 10, 20, 30, 40, 50, 60] 45 = 4 ∧
    tsGetD [0, 10, 20, 30, 40, 50, 60] (bsClosest [0, 10, 20, 30, 40, 50, 60] 45)
      ≠ tsGetD [0, 10, 20, 30, 40, 50, 60]
          (linearScanClosest [0, 10, 20, 30, 40, 50, 60] 45) := by
  decide

/-- Witness for Claim C3 (amended) on the concrete sorted list `[0,10,25]`
with pointer `12`, whose distances `12, 2, 13` are pairwise distinct. -/
theorem bsearch_refines_linear_scan_witness :
    tsGetD [0, 10, 25] (bsClosest [0, 10, 25] 12)
      = tsGetD [0, 10, 25] (linearScanClosest [0, 10, 25] 12) ∧
    bsClosest [0, 10, 25] 12 < ([0, 10, 25] : List Int).length := by
  obtain ⟨⟨h1, h2⟩, h3⟩ :=
    bsearch_refines_linear_scan [0, 10, 25] 12 (by decide) (by decide)
  exact ⟨h3 (by decide), h1⟩

/-! ## Helper lemmas about the render pipeline -/

theorem filterMap_length_mono {a b : Type} (f g : a → Option b) (l : List a)
    (h : ∀ x, (f x).isSome → (g x).isSome) :
    (l.filterMap f).length ≤ (l.filterMap g).length := by
  induction l with
  | nil => exact le_refl _
  | cons x l ih =>
    cases hf : f x with
    | none =>
      cases hg : g x with
      | none =>
        simp only [List.filterMap_cons, hf, hg]
        exact ih
      | some c =>
        simp only [List.filterMap_cons, hf, hg, List.length_cons]
        exact le_trans ih (Nat.le_succ _)
    | some y =>
      have hsome := h x (by rw [hf]; rfl)
      cases hg : g x with
      | none =>
        rw [hg] at hsome
        simp at hsome
      | some c =>
        simp only [List.filterMap_cons, hf, hg, List.length_cons]
        exact Nat.succ_le_succ ih

theorem formatValues_length_mono (vs : List RawPoint) (r1 r2 : DateRange)
    (h1 : r2.start ≤ r1.start) (h2 : r1.stop ≤ r2.stop) :
    (formatValues vs r1).length ≤ (formatValues vs r2).length := by
  unfold formatValues
  rw [List.length_mergeSort, List.length_mergeSort]
  apply filterMap_length_mono
  intro v hv
  cases hd : v.date with
  | none => simp [inRangePoint, hd] at hv
  | some dt =>
    simp only [inRangePoint, hd] at hv ⊢
    split at hv
    · rename_i hin
      rw [if_pos ⟨by omega, by omega⟩]
      rfl
    · simp at hv

theorem decimateData_length_min (data : List Pt) (m : Nat) (hm : 2 ≤ m) :
    (decimateData data m).length = min data.length m := by
  rw [decimateData_length]
  split <;> omega

theorem renderedPointCount_renderChart (data : List RawSeries)
    (visible : String → Bool) (r : DateRange) (width : Nat) :
    renderedPointCount (renderChart data visible r width) =
      ((formatData data visible r).map (fun s =>
        (decimateData s.values (maxPointsPerLine width)).length)).sum := by
  simp only [renderChart]
  split
  · rename_i hcond
    rcases hcond with h | h
    · have hnil : formatData data visible r = [] :=
        List.eq_nil_of_length_eq_zero (by
          rw [← List.length_map (formatData data visible r)
            (fun s => (⟨s.name, decimateData s.values (maxPointsPerLine width)⟩ :
              FormattedSeries))]
          exact h)
      rw [hnil]
      rfl
    · show (0 : Nat) = _
      symm
      apply List.sum_eq_zero
      intro x hx
      obtain ⟨s, hs, rfl⟩ := List.mem_map.mp hx
      have hmem := List.mem_map_of_mem
        (fun s => (⟨s.name, decimateData s.values (maxPointsPerLine width)⟩ :
          FormattedSeries)) hs
      have := List.all_eq_true.mp h _ hmem
      exact of_decide_eq_true this
  · show (((formatData data visible r).map _).map _).sum = _
    rw [List.map_map]
    rfl

/-! ## Claim C8 -/

/-- Claim C8: for any two ranges `R1 ⊆ R2` and the same series data,
visibility set and width, the number of points rendered by `renderChart`
(after the inclusive range filter and the decimation) for `R1` is at most the
number rendered for `R2`: per series the range filter keeps a subset of the
points and the decimated length `min(filteredLength, maxPoints)` is monotone
in the filtered length. -/
theorem rendered_count_monotone (data : List RawSeries) (visible : String → Bool)
    (r1 r2 : DateRange) (width : Nat)
    (hsub : r2.start ≤ r1.start ∧ r1.stop ≤ r2.stop) :
    renderedPointCount (renderChart data visible r1 width) ≤
      renderedPointCount (renderChart data visible r2 width) := by
  rw [renderedPointCount_renderChart, renderedPointCount_renderChart]
  unfold formatData
  rw [List.map_map, List.map_map]
  apply List.sum_le_sum
  intro d hd
  simp only [Function.comp_apply]
  have hM : 2 ≤ maxPointsPerLine width := by
    unfold maxPointsPerLine
    omega
  rw [decimateData_length_min _ _ hM, decimateData_length_min _ _ hM]
  have hmono := formatValues_length_mono d.values r1 r2 hsub.1 hsub.2
  omega

/-- Witness for Claim C8 at a concrete one-series dataset and the nested
ranges `[2,4] ⊆ [0,6]`. -/
theorem rendered_count_monotone_witness :
    renderedPointCount (renderChart [⟨"A", [⟨some 1, 2⟩, ⟨some 5, 3⟩]⟩]
        (fun _ => true) ⟨2, 4⟩ 0) ≤
      renderedPointCount (renderChart [⟨"A", [⟨some 1, 2⟩, ⟨some 5, 3⟩]⟩]
        (fun _ => true) ⟨0, 6⟩ 0) :=
  rendered_count_monotone [⟨"A", [⟨some 1, 2⟩, ⟨some 5, 3⟩]⟩]
    (fun _ => true) ⟨2, 4⟩ ⟨0, 6⟩ 0 ⟨by decide, by decide⟩

/-! ## Claim C9 -/

/-- Claim C9: if filtering by visibility and then by the active range leaves
zero points across all series, `renderChart` renders the explicit
"No data points in the selected date range" placeholder and draws no series;
in particular a visibility set with every series false produces the
placeholder regardless of the raw data. -/
theorem no_data_placeholder (data : List RawSeries) (visible : String → Bool)
    (r : DateRange) (width : Nat) :
    ((∀ s ∈ formatData data visible r, s.values = []) →
      renderChart data visible r width = RenderOutput.placeholder ∧
      drawnSeries (renderChart data visible r width) = []) ∧
    ((∀ n, visible n = false) →
      renderChart data visible r width = RenderOutput.placeholder ∧
      drawnSeries (renderChart data visible r width) = []) := by
  constructor
  · intro hempty
    have hall : ((formatData data visible r).map (fun s =>
        (⟨s.name, decimateData s.values (maxPointsPerLine width)⟩ :
          FormattedSeries))).all (fun d => d.values.length = 0) = true := by
      rw [List.all_eq_true]
      intro d hd
      obtain ⟨s, hs, rfl⟩ := List.mem_map.mp hd
      have hv := hempty s hs
      apply decide_eq_true
      show (decimateData s.values (maxPointsPerLine width)).length = 0
      rw [hv, decimateData_of_le [] _ (Nat.zero_le _)]
      rfl
    have : renderChart data visible r width = RenderOutput.placeholder := by
      simp only [renderChart]
      rw [if_pos (Or.inr hall)]
    exact ⟨this, by rw [this]; rfl⟩
  · intro hvis
    have hnil : formatData data visible r = [] := by
      unfold formatData
      rw [List.filter_eq_nil_iff.mpr (fun d _ => by rw [hvis d.name]; simp)]
      rfl
    have : renderChart data visible r width = RenderOutput.placeholder := by
      simp only [renderChart]
      rw [hnil]
      rfl
    exact ⟨this, by rw [this]; rfl⟩

/-- Witness for Claim C9: an all-false visibility set over non-empty raw data
yields the placeholder, and so does an active range that filters every point
out. -/
theorem no_data_placeholder_witness :
    renderChart [⟨"A", [⟨some 5, 1⟩]⟩] (fun _ => false) ⟨0, 10⟩ 300
        = RenderOutput.placeholder ∧
    renderChart [⟨"A", [⟨some 5, 1⟩]⟩] (fun _ => true) ⟨10, 20⟩ 300
        = RenderOutput.placeholder := by
  refine ⟨((no_data_placeholder [⟨"A", [⟨some 5, 1⟩]⟩] (fun _ => false)
    ⟨0, 10⟩ 300).2 (fun n => rfl)).1, ?_⟩
  exact ((no_data_placeholder [⟨"A", [⟨some 5, 1⟩]⟩] (fun _ => true)
    ⟨10, 20⟩ 300).1 (by
      intro s hs
      simp [formatData, formatValues, inRangePoint] at hs
      subst hs
      rfl)).1

/-! ## Claim C4 -/

/-- Counterexample to Claim C4: in `SentimentChart_v2.tsx` the tooltip value of
a series with no point at the hovered timestamp falls back to `0`
(`seriesValues?.get(series.name) ?? 0`), not to an explicit "not available"
marker: series `"B"` has no point at timestamp 0 yet its row shows `0`. -/
theorem c4_counterexample :
    lookupDateValue [⟨"A", [⟨0, 5⟩]⟩, ⟨"B", [⟨7, 3⟩]⟩] 0 "B" = none ∧
    tooltipRowsV2 [⟨"A", [⟨0, 5⟩]⟩, ⟨"B", [⟨7, 3⟩]⟩] 0 = [("A", 5), ("B", 0)] := by
  decide

/-- Claim C4 (amended): for every resolved hover timestamp both charts list
one tooltip row per drawn series; in `SentimentChart.tsx` a series with no
point at that exact timestamp is rendered as the explicit "N/A" marker (and a
present value renders as that value), while `SentimentChart_v2.tsx` renders
the missing case as the number `0`. -/
theorem tooltip_rows (fd : List FormattedSeries) (t : Int) :
    (tooltipRowsV1 fd t).map Prod.fst = fd.map FormattedSeries.name ∧
    (tooltipRowsV2 fd t).map Prod.fst = fd.map FormattedSeries.name ∧
    (∀ s ∈ fd, lookupDateValue fd t s.name = none →
      (s.name, TooltipCell.na) ∈ tooltipRowsV1 fd t) ∧
    (∀ s ∈ fd, ∀ v, lookupDateValue fd t s.name = some v →
      (s.name, TooltipCell.val v) ∈ tooltipRowsV1 fd t) ∧
    (∀ s ∈ fd, lookupDateValue fd t s.name = none →
      (s.name, (0 : Int)) ∈ tooltipRowsV2 fd t) := by
  refine ⟨?_, ?_, ?_, ?_, ?_⟩
  · unfold tooltipRowsV1
    rw [List.map_map]
    exact List.map_congr_left (fun s _ => rfl)
  · unfold tooltipRowsV2
    rw [List.map_map]
    exact List.map_congr_left (fun s _ => rfl)
  · intro s hs hnone
    unfold tooltipRowsV1
    have h := List.mem_map_of_mem (fun s => (s.name,
      match lookupDateValue fd t s.name with
      | some v => TooltipCell.val v
      | none => TooltipCell.na)) hs
    simp only [hnone] at h
    exact h
  · intro s hs v hsome
    unfold tooltipRowsV1
    have h := List.mem_map_of_mem (fun s => (s.name,
      match lookupDateValue fd t s.name with
      | some v => TooltipCell.val v
      | none => TooltipCell.na)) hs
    simp only [hsome] at h
    exact h
  · intro s hs hnone
    unfold tooltipRowsV2
    have h := List.mem_map_of_mem
      (fun s => (s.name, (lookupDateValue fd t s.name).getD 0)) hs
    simp only [hnone] at h
    exact h

/-- Witness for Claim C4 (amended) on the concrete two-series data: series
`"B"` has no point at timestamp 0, so chart v1 shows the "N/A" marker while
chart v2 shows `0`. -/
theorem tooltip_rows_witness :
    ("B", TooltipCell.na) ∈ tooltipRowsV1 [⟨"A", [⟨0, 5⟩]⟩, ⟨"B", [⟨7, 3⟩]⟩] 0 ∧
    ("B", (0 : Int)) ∈ tooltipRowsV2 [⟨"A", [⟨0, 5⟩]⟩, ⟨"B", [⟨7, 3⟩]⟩] 0 := by
  obtain ⟨h1, h2, h3, h4, h5⟩ :=
    tooltip_rows [⟨"A", [⟨0, 5⟩]⟩, ⟨"B", [⟨7, 3⟩]⟩] 0
  exact ⟨h3 ⟨"B", [⟨7, 3⟩]⟩ (by decide) (by decide),
    h5 ⟨"B", [⟨7, 3⟩]⟩ (by decide) (by decide)⟩

/-! ## Claim C5 -/

/-- Claim C5: every `Range` published by the brush end-of-drag commit
satisfies `start < end` (the d3-brush end event — modelled from the spec —
delivers an ordered selection, and `null` for a zero-width gesture, and the
overview scale inversion is strictly monotone); in particular a commit whose
pixel selection has `start == end` delivers a `null` selection, so the
handler returns early and the published `Range` is unchanged. -/
theorem brush_commit_valid (a b : Int) (invert : Int → Int) (prev : DateRange)
    (hmono : ∀ u v : Int, u < v → invert u < invert v) :
    (brushEndHandler true (d3EndSelection a b) invert prev = prev ∨
      (brushEndHandler true (d3EndSelection a b) invert prev).start <
        (brushEndHandler true (d3EndSelection a b) invert prev).stop) ∧
    (a = b → brushEndHandler true (d3EndSelection a b) invert prev = prev) := by
  constructor
  · unfold d3EndSelection
    split
    · left
      rfl
    · right
      rename_i hne
      show invert (min a b) < invert (max a b)
      exact hmono _ _ (lt_of_le_of_ne min_le_max hne)
  · intro hab
    subst hab
    unfold d3EndSelection
    rw [if_pos (by simp)]
    rfl

/-- Witness for Claim C5 at the identity inversion: a genuine drag from pixel
2 to pixel 7 publishes a valid range, and a zero-width drag at pixel 3 leaves
the previous range `(0, 1)` unchanged. -/
theorem brush_commit_valid_witness :
    (brushEndHandler true (d3EndSelection 2 7) (fun x => x) ⟨0, 1⟩ = ⟨0, 1⟩ ∨
      (brushEndHandler true (d3EndSelection 2 7) (fun x => x) ⟨0, 1⟩).start <
        (brushEndHandler true (d3EndSelection 2 7) (fun x => x) ⟨0, 1⟩).stop) ∧
    brushEndHandler true (d3EndSelection 3 3) (fun x => x) ⟨0, 1⟩ = ⟨0, 1⟩ := by
  obtain ⟨h1, _⟩ := brush_commit_valid 2 7 (fun x => x) ⟨0, 1⟩ (fun u v h => h)
  obtain ⟨_, h2⟩ := brush_commit_valid 3 3 (fun x => x) ⟨0, 1⟩ (fun u v h => h)
  exact ⟨h1, h2 rfl⟩
